import Mathlib

/-!
Shallow embedding of the `ghu` shell-tool subsystem: the command tokenizer and
risk classifier (`shell-risk.ts`), the interactive approval provider
(`interactive-approval-provider.ts`), the sandboxed executor event handling
(`shell-sandbox.ts`) and the shell tool orchestrator (`shell.ts`), together
with theorems settling the specification claims about them.

Modelling conventions: JavaScript strings are modelled as Lean `String`s /
`List Char` (JS iterates UTF-16 code units; for the ASCII data handled here the
two coincide).  JS `Set`/`Map` insertion-ordered collections are modelled as
lists.  The case-insensitive `/https?:\/\//iu` style regexes are modelled by
ASCII lower-casing followed by literal substring search, which agrees with the
regex on all ASCII input.
-/

set_option maxRecDepth 4096

namespace Ghu

/-! ### JavaScript string primitives -/

/-- The characters matched by the JavaScript `\s` regex class (also the set
removed by `String.prototype.trim`). -/
def isJsWhitespace (c : Char) : Bool :=
  c == ' ' || c == '\t' || c == '\n' || c == '\r' ||
  c == Char.ofNat 0x0b || c == Char.ofNat 0x0c ||
  c == Char.ofNat 0x00a0 || c == Char.ofNat 0x1680 ||
  (0x2000 ≤ c.toNat && c.toNat ≤ 0x200a) ||
  c == Char.ofNat 0x2028 || c == Char.ofNat 0x2029 ||
  c == Char.ofNat 0x202f || c == Char.ofNat 0x205f ||
  c == Char.ofNat 0x3000 || c == Char.ofNat 0xfeff

/-- JavaScript `String.prototype.trim` on a character list. -/
def jsTrim (l : List Char) : List Char :=
  ((l.dropWhile isJsWhitespace).reverse.dropWhile isJsWhitespace).reverse

/-- JavaScript `String.prototype.trimEnd` on a character list. -/
def jsTrimEnd (l : List Char) : List Char :=
  (l.reverse.dropWhile isJsWhitespace).reverse

/-- ASCII lower-casing, the model of the `i` regex flag. -/
def lowerChars (l : List Char) : List Char := l.map Char.toLower

/-- `startsWithChars p l` holds when `p` is a leading block of `l`. -/
def startsWithChars : List Char → List Char → Bool
  | [], _ => true
  | _ :: _, [] => false
  | p :: ps, c :: cs => p == c && startsWithChars ps cs

/-- Literal substring search: `containsSub pat l` is true when `pat` occurs
contiguously inside `l` (the model of a literal regex match). -/
def containsSub (pat : List Char) : List Char → Bool
  | [] => startsWithChars pat []
  | c :: rest => startsWithChars pat (c :: rest) || containsSub pat rest

def doubleQuote : Char := Char.ofNat 34

def singleQuote : Char := Char.ofNat 39

def backslashChar : Char := Char.ofNat 92

/-! ### Command tokenizer (`tokenizeShellCommand` in `shell-risk.ts`)

The source scans the command left to right keeping the accumulated `tokens`,
the `current` partial token, the active `quote` character (or null) and the
`escaping` flag.  `tokenizerStep` is the loop body, one character at a time. -/

structure TokenizerState where
  tokens : List (List Char)
  current : List Char
  quote : Option Char
  escaping : Bool
deriving DecidableEq

def tokenizerInit : TokenizerState := ⟨[], [], none, false⟩

def tokenizerStep (st : TokenizerState) (c : Char) : TokenizerState :=
  if st.escaping then
    { st with current := st.current ++ [c], escaping := false }
  else if c = backslashChar then
    { st with escaping := true }
  else
    match st.quote with
    | some q => if c = q then { st with quote := none } else { st with current := st.current ++ [c] }
    | none =>
      if c = doubleQuote ∨ c = singleQuote then
        { st with
            quote := some c,
            tokens := st.tokens ++ (if st.current = [] then [] else [st.current]),
            current := [] }
      else if isJsWhitespace c then
        { st with
            tokens := st.tokens ++ (if st.current = [] then [] else [st.current]),
            current := [] }
      else
        { st with current := st.current ++ [c] }

def tokenizeCore (cs : List Char) : List (List Char) :=
  let final := cs.foldl tokenizerStep tokenizerInit
  let raw := final.tokens ++ (if final.current = [] then [] else [final.current])
  (raw.map jsTrim).filter (fun t => t.length > 0)

def tokenizeShellCommand (command : String) : List String :=
  (tokenizeCore command.data).map (fun t => String.mk t)

/-! ### Risk classifier (`analyzeShellCommand` / `determineRisk`) -/

inductive ShellCommandRiskLevel
  | low
  | external
deriving DecidableEq

structure ShellCommandRisk where
  level : ShellCommandRiskLevel
  reasons : List String
deriving DecidableEq

structure ShellCommandAnalysis where
  command : String
  sanitizedCommand : String
  tokens : List String
  risk : ShellCommandRisk
deriving DecidableEq

def NETWORK_COMMANDS : List String :=
  ["curl", "wget", "http", "https", "ftp", "scp", "ssh", "sftp", "rsync",
   "ping", "nc", "ncat", "netcat", "telnet", "dig", "nslookup"]

def PACKAGE_COMMANDS : List String :=
  ["npm", "pnpm", "yarn", "pip", "pip3", "poetry", "cargo", "brew", "apt",
   "apt-get", "yum", "dnf", "apk", "pacman", "conda", "gem", "bundle",
   "bundler", "composer"]

def SOURCE_CONTROL_COMMANDS : List String :=
  ["git", "hg", "mercurial", "svn", "bzr", "p4"]

def CONTAINER_COMMANDS : List String :=
  ["docker", "podman", "kubectl", "helm", "minikube", "nerdctl"]

def PACKAGE_FOLLOWERS : List String := ["install", "add", "upgrade", "update"]

def SOURCE_CONTROL_FOLLOWERS : List String := ["clone", "fetch", "pull", "push", "remote"]

def CONTAINER_FOLLOWERS : List String := ["pull", "run", "push", "login", "build"]

/-- `tokens.some((token, index) => keywords.has(token) && followers includes
tokens[index + 1])`: a keyword token immediately followed by one of the
follower words (the last token has no follower, so it never matches). -/
def hasKeywordFollowedBy (keywords followers : List String) : List String → Bool
  | t :: next :: rest =>
      (keywords.contains t && followers.contains next) ||
        hasKeywordFollowedBy keywords followers (next :: rest)
  | _ => false

/-- The `/https?:\/\//iu` test on the sanitized command. -/
def testUrlRegex (s : String) : Bool :=
  containsSub "http://".data (lowerChars s.data) ||
    containsSub "https://".data (lowerChars s.data)

/-- The `/scp:\/\/|sftp:\/\//iu` test on the sanitized command. -/
def testRemoteFsRegex (s : String) : Bool :=
  containsSub "scp://".data (lowerChars s.data) ||
    containsSub "sftp://".data (lowerChars s.data)

/-- The reason set accumulated by `determineRisk`, in insertion order (each
`reasons.add` call adds a distinct string, so the JS `Set` is the list of the
conditions that fired, in source order). -/
def riskReasons (tokens : List String) (sanitizedCommand : String) : List String :=
  (if tokens.any (fun t => NETWORK_COMMANDS.contains t) then ["network"] else []) ++
  (if hasKeywordFollowedBy PACKAGE_COMMANDS PACKAGE_FOLLOWERS tokens then
    ["package-manager"] else []) ++
  (if hasKeywordFollowedBy SOURCE_CONTROL_COMMANDS SOURCE_CONTROL_FOLLOWERS tokens then
    ["remote-source-control"] else []) ++
  (if hasKeywordFollowedBy CONTAINER_COMMANDS CONTAINER_FOLLOWERS tokens then
    ["container-runtime"] else []) ++
  (if testUrlRegex sanitizedCommand then ["url-detected"] else []) ++
  (if testRemoteFsRegex sanitizedCommand then ["remote-filesystem"] else [])

def determineRisk (tokens : List String) (sanitizedCommand : String) : ShellCommandRisk :=
  { level := if (riskReasons tokens sanitizedCommand).length > 0 then .external else .low,
    reasons := riskReasons tokens sanitizedCommand }

def analyzeShellCommand (command : String) : ShellCommandAnalysis :=
  let sanitizedCommand := String.mk (jsTrim command.data)
  let tokens := tokenizeShellCommand sanitizedCommand
  { command := command, sanitizedCommand := sanitizedCommand, tokens := tokens,
    risk := determineRisk tokens sanitizedCommand }

/-! ### Approval data model (`shell/approvals.ts`) -/

inductive ShellToolApprovalDecision
  | allow
  | deny
deriving DecidableEq

inductive ShellToolApprovalScope
  | once
  | session
deriving DecidableEq

/-- `{ decision, scope?, reason? }`; absent optional fields are `none`. -/
structure ShellToolApprovalResult where
  decision : ShellToolApprovalDecision
  scope : Option ShellToolApprovalScope
  reason : Option String
deriving DecidableEq

/-- `ShellSandboxOptions`; `shellPath?: string | boolean` becomes
`Option (String ⊕ Bool)` and `env?: ProcessEnv` an optional association list
whose values may be `undefined`. -/
structure ShellSandboxOptions where
  cwd : Option String
  timeoutMs : Option Nat
  env : Option (List (String × Option String))
  maxBuffer : Option Nat
  shellPath : Option (String ⊕ Bool)
deriving DecidableEq

structure ShellToolApprovalRequest where
  command : String
  analysis : ShellCommandAnalysis
  sandbox : ShellSandboxOptions
deriving DecidableEq

/-! ### Interactive approval provider (`interactive-approval-provider.ts`)

The provider's mutable fields (`pending` map, `approvedCommands` set and the
module-level `approvalCounter`) form `ProviderState`.  The promise `resolve`
callback stored in each `PendingApproval` is modelled by returning the list of
resolutions delivered to suspended callers; emitted events are returned as
lists.  The `createdAt`/`resolvedAt` wall-clock fields are omitted. -/

inductive InteractiveApprovalDecision
  | allow (scope : ShellToolApprovalScope)
  | deny (reason : Option String)
deriving DecidableEq

structure PendingApproval where
  request : ShellToolApprovalRequest
  cacheKey : String
deriving DecidableEq

structure ProviderState where
  pending : List (String × PendingApproval)
  approvedCommands : List String
  approvalCounter : Nat
deriving DecidableEq

inductive ProviderEvent
  | requestCreated (id : String) (request : ShellToolApprovalRequest)
  | resolvedEvent (id : String) (decision : InteractiveApprovalDecision)
      (result : ShellToolApprovalResult)
deriving DecidableEq

def buildCacheKey (request : ShellToolApprovalRequest) : String :=
  request.analysis.sanitizedCommand

/-- JS `Set.prototype.add`: append if absent. -/
def setAdd (l : List String) (x : String) : List String :=
  if l.contains x then l else l ++ [x]

def nextId (counter : Nat) : String := "approval-" ++ toString (counter + 1)

inductive RequestOutcome
  | resolvedNow (result : ShellToolApprovalResult)
  | suspended (id : String)
deriving DecidableEq

structure RequestOutput where
  state : ProviderState
  outcome : RequestOutcome
  events : List ProviderEvent
deriving DecidableEq

/-- `InteractiveApprovalProvider.requestApproval`: session-cache hit returns
`allow/session` at once; otherwise a fresh id is generated, a pending entry
stored, and a request-created event emitted while the caller suspends. -/
def requestApproval (st : ProviderState) (request : ShellToolApprovalRequest) : RequestOutput :=
  if st.approvedCommands.contains (buildCacheKey request) then
    ⟨st, .resolvedNow ⟨.allow, some .session, none⟩, []⟩
  else
    ⟨⟨st.pending ++ [(nextId st.approvalCounter, ⟨request, buildCacheKey request⟩)],
        st.approvedCommands, st.approvalCounter + 1⟩,
      .suspended (nextId st.approvalCounter),
      [.requestCreated (nextId st.approvalCounter) request]⟩

def mapDecision (entry : PendingApproval) : InteractiveApprovalDecision → ShellToolApprovalResult
  | .allow scope => ⟨.allow, some scope, none⟩
  | .deny reason =>
      ⟨.deny, none,
        some (reason.getD ("Command \"" ++ entry.request.command ++ "\" was denied by the user."))⟩

structure RespondOutput where
  state : ProviderState
  handled : Bool
  delivered : List (String × ShellToolApprovalResult)
  events : List ProviderEvent
deriving DecidableEq

/-- `InteractiveApprovalProvider.respond`: unknown ids return `false`; a known
id is deleted from the pending map, the session cache updated on
`allow/session`, the suspended caller resolved and a resolved event emitted. -/
def respond (st : ProviderState) (requestId : String)
    (decision : InteractiveApprovalDecision) : RespondOutput :=
  match st.pending.lookup requestId with
  | none => ⟨st, false, [], []⟩
  | some entry =>
      let pending' := st.pending.eraseP (fun p => p.1 == requestId)
      let result := mapDecision entry decision
      let approved' :=
        match decision with
        | .allow .session => setAdd st.approvedCommands entry.cacheKey
        | _ => st.approvedCommands
      ⟨⟨pending', approved', st.approvalCounter⟩, true, [(requestId, result)],
        [.resolvedEvent requestId decision result]⟩

def cancel (st : ProviderState) (requestId : String) (reason : Option String) : RespondOutput :=
  respond st requestId (.deny (some (reason.getD "Cancelled")))

structure CancelAllOutput where
  state : ProviderState
  delivered : List (String × ShellToolApprovalResult)
  events : List ProviderEvent
deriving DecidableEq

/-- One iteration of the `cancelAll` loop: cancel one id and accumulate what
was delivered and emitted. -/
def cancelAllStep (reason : Option String) (acc : CancelAllOutput) (id : String) :
    CancelAllOutput :=
  ⟨(cancel acc.state id reason).state, acc.delivered ++ (cancel acc.state id reason).delivered,
    acc.events ++ (cancel acc.state id reason).events⟩

/-- `InteractiveApprovalProvider.cancelAll`: snapshot the pending ids, then
cancel each in order. -/
def cancelAll (st : ProviderState) (reason : Option String) : CancelAllOutput :=
  (st.pending.map Prod.fst).foldl (cancelAllStep reason) ⟨st, [], []⟩

/-! ### Sandboxed executor event handling (`shell-sandbox.ts`)

`runSandboxedCommand` wires callbacks onto a spawned child: per-stream `data`
handlers, a wall-clock timer, an `error` handler and a `close` handler.  The
node event loop delivers these callbacks one at a time in some order, so the
body is modelled as a step function on the callback state (`completed` is
`outcome.isSome`: the promise resolves or rejects exactly when `completed`
flips).  Stream bytes are modelled as `List Nat`; the final
`Buffer.concat(...).toString('utf8')` decoding is left at the byte level. -/

structure SandboxConfig where
  timeoutMs : Nat
  maxBuffer : Nat
deriving DecidableEq

inductive SandboxStream
  | stdoutStream
  | stderrStream
deriving DecidableEq

structure SandboxByteResult where
  stdout : List Nat
  stderr : List Nat
  exitCode : Option Int
  signal : Option String
deriving DecidableEq

inductive SandboxOutcome
  | resolvedOutcome (result : SandboxByteResult)
  | rejectedOutcome (message : String) (captured : Option SandboxByteResult)
deriving DecidableEq

structure SandboxRun where
  stdoutChunks : List (List Nat)
  stderrChunks : List (List Nat)
  stdoutSize : Nat
  stderrSize : Nat
  timerActive : Bool
  outcome : Option SandboxOutcome
deriving DecidableEq

def sandboxInit : SandboxRun := ⟨[], [], 0, 0, true, none⟩

/-- The `finish` helper: resolve unless already completed. -/
def finishRun (st : SandboxRun) (result : SandboxByteResult) : SandboxRun :=
  if st.outcome.isSome then st else { st with outcome := some (.resolvedOutcome result) }

/-- The `abort` helper: kill the child and reject unless already completed. -/
def abortRun (st : SandboxRun) (message : String)
    (captured : Option SandboxByteResult) : SandboxRun :=
  if st.outcome.isSome then st else { st with outcome := some (.rejectedOutcome message captured) }

def streamLabel : SandboxStream → String
  | .stdoutStream => "stdout"
  | .stderrStream => "stderr"

def overflowMessage (stream : SandboxStream) (maxBuffer : Nat) : String :=
  "Sandbox " ++ streamLabel stream ++ " exceeded " ++ toString maxBuffer ++ " bytes"

def timeoutMessage (timeoutMs : Nat) : String :=
  "Command timed out after " ++ toString timeoutMs ++ "ms"

def capturedSoFar (st : SandboxRun) : SandboxByteResult :=
  ⟨st.stdoutChunks.flatten, st.stderrChunks.flatten, none, none⟩

def streamSize (st : SandboxRun) : SandboxStream → Nat
  | .stdoutStream => st.stdoutSize
  | .stderrStream => st.stderrSize

/-- The `onData` handler: overflow clears the timer and aborts with the bytes
captured so far (the offending chunk excluded); otherwise the chunk is
appended and the stream size advanced. -/
def sandboxOnData (cfg : SandboxConfig) (st : SandboxRun) (stream : SandboxStream)
    (chunk : List Nat) : SandboxRun :=
  let nextSize := streamSize st stream + chunk.length
  if nextSize > cfg.maxBuffer then
    abortRun { st with timerActive := false } (overflowMessage stream cfg.maxBuffer)
      (some (capturedSoFar st))
  else
    match stream with
    | .stdoutStream => { st with stdoutChunks := st.stdoutChunks ++ [chunk], stdoutSize := nextSize }
    | .stderrStream => { st with stderrChunks := st.stderrChunks ++ [chunk], stderrSize := nextSize }

inductive SandboxEvent
  | dataEvent (stream : SandboxStream) (chunk : List Nat)
  | timeoutEvent
  | errorEvent (message : String)
  | closeEvent (code : Option Int) (signal : Option String)
deriving DecidableEq

/-- One event-loop callback of `runSandboxedCommand`.  The timer fires only
while armed; `error` and `close` clear the timer first, then abort/finish. -/
def sandboxStep (cfg : SandboxConfig) (st : SandboxRun) : SandboxEvent → SandboxRun
  | .dataEvent stream chunk => sandboxOnData cfg st stream chunk
  | .timeoutEvent =>
      if st.timerActive then
        abortRun { st with timerActive := false } (timeoutMessage cfg.timeoutMs) none
      else st
  | .errorEvent message => abortRun { st with timerActive := false } message none
  | .closeEvent code signal =>
      finishRun { st with timerActive := false }
        ⟨st.stdoutChunks.flatten, st.stderrChunks.flatten, code, signal⟩

def sandboxRunEvents (cfg : SandboxConfig) (st : SandboxRun)
    (events : List SandboxEvent) : SandboxRun :=
  events.foldl (sandboxStep cfg) st

/-! ### Shell tool orchestrator (`shell.ts`) -/

/-- `ShellSandboxResult` as the orchestrator sees it (decoded strings). -/
structure ShellSandboxResult where
  stdout : String
  stderr : String
  exitCode : Option Int
  signal : Option String
deriving DecidableEq

inductive DisplayTone
  | info
  | success
  | warning
  | error
deriving DecidableEq

structure ToolDisplayPreview where
  lines : List String
  truncated : Bool
deriving DecidableEq

structure ToolDisplayMetadata where
  command : String
  exitCode : Option Int
  signal : Option String
  risk : Option ShellCommandRiskLevel
  riskReasons : Option (List String)
deriving DecidableEq

structure ToolDisplay where
  message : String
  tone : DisplayTone
  details : Option String
  metadata : Option ToolDisplayMetadata
  preview : Option ToolDisplayPreview
deriving DecidableEq

structure ToolExecutionResult where
  output : String
  error : Option String
  display : Option ToolDisplay
deriving DecidableEq

def PREVIEW_HEAD_LINES : Nat := 2

def PREVIEW_TAIL_LINES : Nat := 1

def PREVIEW_MAX_LINE_LENGTH : Nat := 120

/-- `output.replace(/\r\n/g, '\n')`: left-to-right non-overlapping rewrite. -/
def replaceCrLf : List Char → List Char
  | [] => []
  | [c] => [c]
  | c :: d :: rest =>
      if c = '\r' ∧ d = '\n' then '\n' :: replaceCrLf rest
      else c :: replaceCrLf (d :: rest)

/-- `line.replace(/\r$/u, '')`. -/
def dropTrailingCr (l : List Char) : List Char :=
  if l.getLast? = some '\r' then l.dropLast else l

/-- The `meaningfulLines` computed by `createOutputPreview`. -/
def meaningfulLines (output : String) : List (List Char) :=
  (((replaceCrLf output.data).splitOn '\n').map dropTrailingCr).filter
    (fun l => (jsTrim l).length > 0)

/-- The `trimLine` helper: trailing-whitespace strip, then length cap with an
ellipsis replacing the 120th character. -/
def trimLine (l : List Char) : List Char :=
  if (jsTrimEnd l).length ≤ PREVIEW_MAX_LINE_LENGTH then jsTrimEnd l
  else (jsTrimEnd l).take (PREVIEW_MAX_LINE_LENGTH - 1) ++ ['…']

/-- `createOutputPreview` on a string input (a non-string input returns
`undefined` before this logic runs). -/
def createOutputPreview (output : String) : Option ToolDisplayPreview :=
  if (meaningfulLines output).length = 0 then none
  else if (meaningfulLines output).length ≤ PREVIEW_HEAD_LINES + PREVIEW_TAIL_LINES then
    some ⟨(meaningfulLines output).map (fun l => String.mk (trimLine l)), false⟩
  else
    some ⟨((meaningfulLines output).take PREVIEW_HEAD_LINES).map
        (fun l => String.mk (trimLine l)) ++
      ["…"] ++
      ((meaningfulLines output).drop
          ((meaningfulLines output).length - PREVIEW_TAIL_LINES)).map
        (fun l => String.mk (trimLine l)), true⟩

/-- The number of preview entries showing actual output lines (the ellipsis
marker, present exactly when truncated, is not an output line). -/
def shownLineCount (p : ToolDisplayPreview) : Nat :=
  if p.truncated then p.lines.length - 1 else p.lines.length

inductive ShellExecFailure
  | sandboxFailure (message : String) (result : Option ShellSandboxResult)
  | otherFailure (message : String)
deriving DecidableEq

/-- `ShellToolOptions`; the asynchronous approval provider is modelled as an
optional function from requests to the awaited result. -/
structure ShellToolOptions where
  timeoutMs : Option Nat
  cwd : Option String
  sandbox : Option ShellSandboxOptions
  approvalProvider : Option (ShellToolApprovalRequest → ShellToolApprovalResult)

/-- `ShellTool.resolveSandboxOptions`: `??` chains plus JS-falsy defaulting of
`timeoutMs`/`maxBuffer` (`0` is falsy, hence also replaced by the default). -/
def resolveSandboxOptions (o : ShellToolOptions) : ShellSandboxOptions :=
  let t0 := match o.timeoutMs with
    | some t => some t
    | none => o.sandbox.bind (fun s => s.timeoutMs)
  let m0 := o.sandbox.bind (fun s => s.maxBuffer)
  { cwd := o.cwd,
    timeoutMs := some (match t0 with | some t => if t = 0 then 5000 else t | none => 5000),
    env := o.sandbox.bind (fun s => s.env),
    maxBuffer := some (match m0 with | some m => if m = 0 then 1048576 else m | none => 1048576),
    shellPath := o.sandbox.bind (fun s => s.shellPath) }

def noApprovalProviderMessage (rawCommand : String) : String :=
  "Command \"" ++ rawCommand ++ "\" requires approval but no approval provider is configured."

def providerDeniedMessage (rawCommand : String) : String :=
  "Command \"" ++ rawCommand ++ "\" was denied by the approval provider."

/-- `ShellTool.ensureApproval`: non-external risk passes; otherwise a missing
provider or a non-allow decision throws a `ShellSandboxError` (no result). -/
def ensureApproval (opts : ShellToolOptions) (analysis : ShellCommandAnalysis)
    (rawCommand : String) : Except String Unit :=
  if analysis.risk.level ≠ .external then .ok ()
  else
    match opts.approvalProvider with
    | none => .error (noApprovalProviderMessage rawCommand)
    | some provider =>
        let result := provider ⟨rawCommand, analysis, resolveSandboxOptions opts⟩
        if result.decision = .allow then .ok ()
        else .error (result.reason.getD (providerDeniedMessage rawCommand))

/-- `[a, b].filter(Boolean).flatten('\n').trim()`. -/
def filterJoinTrim (parts : List String) : String :=
  String.mk (jsTrim (String.intercalate "\n" (parts.filter (fun s => s ≠ ""))).data)

def formatSandboxResult (result : ShellSandboxResult) : String :=
  filterJoinTrim [result.stdout, result.stderr]

def extractSandboxPreview (result : Option ShellSandboxResult) : Option String :=
  match result with
  | none => none
  | some r =>
      let combined := filterJoinTrim [r.stderr, r.stdout]
      if combined.length > 0 then some combined else none

def exitCodeText : Option Int → String
  | none => "null"
  | some n => toString n

def missingInputMessage : String :=
  "Shell tool requires a non-empty string \"command\" property."

/-- `ShellTool.run` on a string command.  The sandboxed executor is passed in
as `exec` (its promise outcome: a result, or a thrown `ShellSandboxError` /
other error).  The second component records whether the executor was invoked. -/
def shellToolRun (opts : ShellToolOptions)
    (exec : String → ShellSandboxOptions → Except ShellExecFailure ShellSandboxResult)
    (rawCommand : String) : ToolExecutionResult × Bool :=
  if (jsTrim rawCommand.data).length = 0 then
    (⟨"", some missingInputMessage,
      some ⟨"Shell command aborted: missing input.", .error, some missingInputMessage,
        some ⟨rawCommand, none, none, none, none⟩, none⟩⟩, false)
  else
    match ensureApproval opts (analyzeShellCommand rawCommand) rawCommand with
    | .error msg =>
        (⟨"", some msg,
          some ⟨"", .error, some msg,
            some ⟨rawCommand, none, none, some (analyzeShellCommand rawCommand).risk.level,
              some (analyzeShellCommand rawCommand).risk.reasons⟩,
            (extractSandboxPreview none).bind createOutputPreview⟩⟩, false)
    | .ok _ =>
        match exec rawCommand (resolveSandboxOptions opts) with
        | .ok result =>
            (⟨formatSandboxResult result, none,
              some ⟨(if result.exitCode = some 0 then ""
                  else "Command exited with code " ++ exitCodeText result.exitCode), .info,
                none,
                some ⟨rawCommand, result.exitCode, result.signal,
                  some (analyzeShellCommand rawCommand).risk.level,
                  some (analyzeShellCommand rawCommand).risk.reasons⟩,
                createOutputPreview (formatSandboxResult result)⟩⟩, true)
        | .error (.sandboxFailure msg res) =>
            (⟨"", some msg,
              some ⟨"", .error, some msg,
                some ⟨rawCommand, none, none, some (analyzeShellCommand rawCommand).risk.level,
                  some (analyzeShellCommand rawCommand).risk.reasons⟩,
                (extractSandboxPreview res).bind createOutputPreview⟩⟩, true)
        | .error (.otherFailure msg) =>
            (⟨"", some msg,
              some ⟨"", .error, some msg, some ⟨rawCommand, none, none, none, none⟩, none⟩⟩, true)

/-! ### Concrete fixtures used by witness theorems -/

def sampleAnalysis : ShellCommandAnalysis :=
  ⟨"curl x", "curl x", ["curl", "x"], ⟨.external, ["network"]⟩⟩

def sampleRequest : ShellToolApprovalRequest :=
  ⟨"curl x", sampleAnalysis, ⟨none, none, none, none, none⟩⟩

def sampleEntry : PendingApproval := ⟨sampleRequest, "curl x"⟩

def sampleProviderState : ProviderState :=
  ⟨[("approval-1", sampleEntry), ("approval-2", sampleEntry)], [], 2⟩

/-! ### Substring and trimming lemmas -/

example : tokenizeShellCommand "say \"hello world\" now" = ["say", "hello world", "now"] := by
  decide

example : (analyzeShellCommand "curl https://example.com").risk =
    ⟨.external, ["network", "url-detected"]⟩ := by decide

example : (analyzeShellCommand "npm install lodash").risk.reasons = ["package-manager"] := by
  decide

example : (analyzeShellCommand "ls -la").risk = ⟨.low, []⟩ := by decide


theorem startsWithChars_iff (p : List Char) :
    ∀ l, startsWithChars p l = true ↔ ∃ t, l = p ++ t := by
  induction p with
  | nil => intro l; simp [startsWithChars]
  | cons a ps ih =>
      intro l
      cases l with
      | nil =>
          simp [startsWithChars]
      | cons c cs =>
          simp only [startsWithChars, Bool.and_eq_true, beq_iff_eq, ih]
          constructor
          · rintro ⟨h1, t, ht⟩
            exact ⟨t, by rw [List.cons_append, ← h1, ht]⟩
          · rintro ⟨t, h⟩
            rw [List.cons_append] at h
            injection h with h1 h2
            exact ⟨h1.symm, t, h2⟩

theorem containsSub_iff (pat : List Char) :
    ∀ l, containsSub pat l = true ↔ ∃ s t, l = s ++ pat ++ t := by
  intro l
  induction l with
  | nil =>
      simp only [containsSub, startsWithChars_iff]
      constructor
      · rintro ⟨t, ht⟩
        exact ⟨[], t, by simpa using ht⟩
      · rintro ⟨s, t, h⟩
        obtain ⟨hs, ht⟩ := List.append_eq_nil.mp h.symm
        obtain ⟨hs2, hp⟩ := List.append_eq_nil.mp hs
        exact ⟨[], by simp [hp]⟩
  | cons c cs ih =>
      simp only [containsSub, Bool.or_eq_true, startsWithChars_iff, ih]
      constructor
      · rintro (⟨t, ht⟩ | ⟨s, t, ht⟩)
        · exact ⟨[], t, by simpa using ht⟩
        · exact ⟨c :: s, t, by simp [ht]⟩
      · rintro ⟨s, t, h⟩
        cases s with
        | nil => exact Or.inl ⟨t, by simpa using h⟩
        | cons a s' =>
            rw [List.cons_append, List.cons_append] at h
            injection h with h1 h2
            exact Or.inr ⟨s', t, h2⟩

theorem containsSub_of_chunk {pat m : List Char} (u v : List Char)
    (h : containsSub pat m = true) : containsSub pat (u ++ m ++ v) = true := by
  obtain ⟨s, t, rfl⟩ := (containsSub_iff pat m).mp h
  exact (containsSub_iff pat _).mpr ⟨u ++ s, t ++ v, by simp⟩

theorem containsSub_append_right {pat l₂ : List Char} (l₁ : List Char)
    (h : containsSub pat l₂ = true) : containsSub pat (l₁ ++ l₂) = true := by
  obtain ⟨s, t, rfl⟩ := (containsSub_iff pat l₂).mp h
  exact (containsSub_iff pat _).mpr ⟨l₁ ++ s, t, by simp⟩

theorem exists_dropWhile_chunk (p : Char → Bool) :
    ∀ l : List Char, ∃ u, l = u ++ l.dropWhile p := by
  intro l
  induction l with
  | nil => exact ⟨[], rfl⟩
  | cons c cs ih =>
      by_cases h : p c
      · obtain ⟨u, hu⟩ := ih
        refine ⟨c :: u, ?_⟩
        rw [List.dropWhile_cons, if_pos h, List.cons_append]
        exact congrArg (c :: ·) hu
      · refine ⟨[], ?_⟩
        rw [List.dropWhile_cons, if_neg h]
        rfl

theorem jsTrim_chunk (l : List Char) : ∃ u v, l = u ++ jsTrim l ++ v := by
  obtain ⟨u, hu⟩ := exists_dropWhile_chunk isJsWhitespace l
  obtain ⟨w, hw⟩ := exists_dropWhile_chunk isJsWhitespace (l.dropWhile isJsWhitespace).reverse
  refine ⟨u, w.reverse, ?_⟩
  have hm : l.dropWhile isJsWhitespace = jsTrim l ++ w.reverse := by
    have h2 := congrArg List.reverse hw
    rw [List.reverse_reverse, List.reverse_append] at h2
    exact h2
  calc l = u ++ l.dropWhile isJsWhitespace := hu
    _ = u ++ (jsTrim l ++ w.reverse) := by rw [hm]
    _ = u ++ jsTrim l ++ w.reverse := by rw [List.append_assoc]

theorem mem_of_mem_jsTrim {c : Char} {l : List Char} (h : c ∈ jsTrim l) : c ∈ l := by
  obtain ⟨u, v, hl⟩ := jsTrim_chunk l
  have hmem : c ∈ u ++ jsTrim l ++ v := by simp [h]
  rwa [← hl] at hmem

theorem jsTrim_eq_nil_of_all_ws {l : List Char} (h : ∀ c ∈ l, isJsWhitespace c = true) :
    jsTrim l = [] := by
  have h1 : l.dropWhile isJsWhitespace = [] := List.dropWhile_eq_nil_iff.mpr h
  simp [jsTrim, h1]

theorem containsSub_lowerTrim_mono {pat d : List Char}
    (h : containsSub pat (lowerChars (jsTrim d)) = true) :
    containsSub pat (lowerChars d) = true := by
  obtain ⟨u, v, hd⟩ := jsTrim_chunk d
  have h2 : lowerChars d = lowerChars u ++ lowerChars (jsTrim d) ++ lowerChars v := by
    conv_lhs => rw [hd]
    simp [lowerChars]
  rw [h2]
  exact containsSub_of_chunk _ _ h

theorem boolFalse_of_mono {a b : Bool} (mono : a = true → b = true) (hb : b = false) :
    a = false := by
  cases a with
  | false => rfl
  | true => simp [mono rfl] at hb

/-! ### Risk classifier lemmas -/

theorem determineRisk_level_spec (tokens : List String) (s : String) :
    ((determineRisk tokens s).level = .external ↔ (determineRisk tokens s).reasons ≠ []) ∧
    ((determineRisk tokens s).level = .low ↔ (determineRisk tokens s).reasons = []) := by
  unfold determineRisk
  cases hr : riskReasons tokens s with
  | nil => simp [hr]
  | cons a l => simp [hr]

theorem network_reason_spec (tokens : List String) (s : String)
    (h : tokens.any (fun x => NETWORK_COMMANDS.contains x) = true) :
    "network" ∈ (determineRisk tokens s).reasons ∧
      (determineRisk tokens s).level = .external := by
  have hr : ∃ rest, riskReasons tokens s = "network" :: rest := by
    unfold riskReasons
    rw [if_pos h]
    exact ⟨_, rfl⟩
  obtain ⟨rest, hr⟩ := hr
  constructor
  · show "network" ∈ riskReasons tokens s
    rw [hr]
    exact List.mem_cons_self _ _
  · show (if (riskReasons tokens s).length > 0 then ShellCommandRiskLevel.external else .low) =
      .external
    rw [hr]
    simp

theorem hasKeywordFollowedBy_eq_false (keywords followers : List String) :
    ∀ tokens : List String, (∀ t ∈ tokens, keywords.contains t = false) →
      hasKeywordFollowedBy keywords followers tokens = false := by
  intro tokens
  induction tokens with
  | nil => intro _; rfl
  | cons a rest ih =>
      intro h
      cases rest with
      | nil => rfl
      | cons b rest' =>
          have ha : keywords.contains a = false := h a (by simp)
          have hrest : ∀ t ∈ b :: rest', keywords.contains t = false := fun t ht =>
            h t (List.mem_cons_of_mem a ht)
          simp only [hasKeywordFollowedBy, ha, Bool.false_and, Bool.false_or]
          exact ih hrest

/-! ### Claim theorems: risk classifier -/

/-- C1: for every command string, `analyzeShellCommand` reports level
`external` exactly when the reasons list is non-empty, and level `low` exactly
when it is empty; no reason ever downgrades the level. -/
theorem c1_level_iff_reasons (command : String) :
    ((analyzeShellCommand command).risk.level = .external ↔
      (analyzeShellCommand command).risk.reasons ≠ []) ∧
    ((analyzeShellCommand command).risk.level = .low ↔
      (analyzeShellCommand command).risk.reasons = []) :=
  determineRisk_level_spec
    (tokenizeShellCommand (String.mk (jsTrim command.data))) (String.mk (jsTrim command.data))

/-- C9: the `network` reason needs no positional lookahead — any token equal
to a network-tool keyword, at any index (including as an argument of another
command), puts `network` in the reasons and makes the level `external`. -/
theorem c9_network_any_position (command t : String)
    (ht : t ∈ (analyzeShellCommand command).tokens)
    (hnet : NETWORK_COMMANDS.contains t = true) :
    "network" ∈ (analyzeShellCommand command).risk.reasons ∧
      (analyzeShellCommand command).risk.level = .external := by
  have hany : ((analyzeShellCommand command).tokens).any
      (fun x => NETWORK_COMMANDS.contains x) = true :=
    List.any_eq_true.mpr ⟨t, ht, hnet⟩
  exact network_reason_spec
    (tokenizeShellCommand (String.mk (jsTrim command.data))) (String.mk (jsTrim command.data)) hany

theorem c9_network_any_position_witness :
    "network" ∈ (analyzeShellCommand "man curl").risk.reasons ∧
      (analyzeShellCommand "man curl").risk.level = .external :=
  c9_network_any_position "man curl" "curl" (by decide) (by decide)

/-- C6: a command none of whose tokens is a network, package-manager,
source-control or container keyword, and which contains no case-insensitive
`http://`, `https://`, `scp://` or `sftp://` substring (the `/iu` regexes of
the source), is analyzed as level `low` with an empty reasons list; in
particular an empty or whitespace-only command is `low` with no reasons. -/
theorem c6_no_keywords_low_risk :
    (∀ command : String,
      (∀ t ∈ (analyzeShellCommand command).tokens,
          NETWORK_COMMANDS.contains t = false ∧ PACKAGE_COMMANDS.contains t = false ∧
          SOURCE_CONTROL_COMMANDS.contains t = false ∧ CONTAINER_COMMANDS.contains t = false) →
      containsSub "http://".data (lowerChars command.data) = false →
      containsSub "https://".data (lowerChars command.data) = false →
      containsSub "scp://".data (lowerChars command.data) = false →
      containsSub "sftp://".data (lowerChars command.data) = false →
      (analyzeShellCommand command).risk = ⟨.low, []⟩) ∧
    (∀ command : String, (∀ c ∈ command.data, isJsWhitespace c = true) →
      (analyzeShellCommand command).risk = ⟨.low, []⟩) := by
  constructor
  · intro command htok hu1 hu2 hr1 hr2
    have htok' : ∀ t ∈ tokenizeShellCommand (String.mk (jsTrim command.data)),
        NETWORK_COMMANDS.contains t = false ∧ PACKAGE_COMMANDS.contains t = false ∧
        SOURCE_CONTROL_COMMANDS.contains t = false ∧ CONTAINER_COMMANDS.contains t = false :=
      htok
    have hany : (tokenizeShellCommand (String.mk (jsTrim command.data))).any
        (fun x => NETWORK_COMMANDS.contains x) = false :=
      List.any_eq_false.mpr (fun t htm => by simpa using (htok' t htm).1)
    have hpk := hasKeywordFollowedBy_eq_false PACKAGE_COMMANDS PACKAGE_FOLLOWERS
      (tokenizeShellCommand (String.mk (jsTrim command.data))) (fun t htm => (htok' t htm).2.1)
    have hsc := hasKeywordFollowedBy_eq_false SOURCE_CONTROL_COMMANDS SOURCE_CONTROL_FOLLOWERS
      (tokenizeShellCommand (String.mk (jsTrim command.data))) (fun t htm => (htok' t htm).2.2.1)
    have hct := hasKeywordFollowedBy_eq_false CONTAINER_COMMANDS CONTAINER_FOLLOWERS
      (tokenizeShellCommand (String.mk (jsTrim command.data))) (fun t htm => (htok' t htm).2.2.2)
    have hurl : testUrlRegex (String.mk (jsTrim command.data)) = false := by
      unfold testUrlRegex
      rw [show (String.mk (jsTrim command.data)).data = jsTrim command.data from rfl]
      rw [boolFalse_of_mono (fun h => containsSub_lowerTrim_mono h) hu1,
        boolFalse_of_mono (fun h => containsSub_lowerTrim_mono h) hu2]
      rfl
    have hfs : testRemoteFsRegex (String.mk (jsTrim command.data)) = false := by
      unfold testRemoteFsRegex
      rw [show (String.mk (jsTrim command.data)).data = jsTrim command.data from rfl]
      rw [boolFalse_of_mono (fun h => containsSub_lowerTrim_mono h) hr1,
        boolFalse_of_mono (fun h => containsSub_lowerTrim_mono h) hr2]
      rfl
    have hreasons : riskReasons (tokenizeShellCommand (String.mk (jsTrim command.data)))
        (String.mk (jsTrim command.data)) = [] := by
      unfold riskReasons
      rw [hany, hpk, hsc, hct, hurl, hfs]
      simp
    show determineRisk (tokenizeShellCommand (String.mk (jsTrim command.data)))
      (String.mk (jsTrim command.data)) = ⟨.low, []⟩
    unfold determineRisk
    rw [hreasons]
    simp
  · intro command hws
    have h0 : jsTrim command.data = [] := jsTrim_eq_nil_of_all_ws hws
    show determineRisk (tokenizeShellCommand (String.mk (jsTrim command.data)))
      (String.mk (jsTrim command.data)) = ⟨.low, []⟩
    rw [h0]
    decide

theorem c6_no_keywords_low_risk_witness :
    (analyzeShellCommand "ls -la src").risk = ⟨.low, []⟩ ∧
    (analyzeShellCommand "  ").risk = ⟨.low, []⟩ :=
  ⟨c6_no_keywords_low_risk.1 "ls -la src" (by decide) (by decide) (by decide) (by decide)
      (by decide),
    c6_no_keywords_low_risk.2 "  " (by decide)⟩

/-! ### Tokenizer step-shape lemmas -/

theorem tokenizerStep_escaping (st : TokenizerState) (c : Char) (h : st.escaping = true) :
    tokenizerStep st c = { st with current := st.current ++ [c], escaping := false } := by
  simp [tokenizerStep, h]

theorem tokenizerStep_backslash (st : TokenizerState) (h : st.escaping = false) :
    tokenizerStep st backslashChar = { st with escaping := true } := by
  simp [tokenizerStep, h]

theorem tokenizerStep_quote_close (st : TokenizerState) (q : Char) (h : st.escaping = false)
    (hq : st.quote = some q) (hcb : q ≠ backslashChar) :
    tokenizerStep st q = { st with quote := none } := by
  simp [tokenizerStep, h, hq, hcb]

theorem tokenizerStep_inQuote (st : TokenizerState) (q c : Char) (h : st.escaping = false)
    (hq : st.quote = some q) (hcb : c ≠ backslashChar) (hcq : c ≠ q) :
    tokenizerStep st c = { st with current := st.current ++ [c] } := by
  simp [tokenizerStep, h, hq, hcb, hcq]

theorem tokenizerStep_openQuote (st : TokenizerState) (c : Char) (h : st.escaping = false)
    (hq : st.quote = none) (hc : c = doubleQuote ∨ c = singleQuote) :
    tokenizerStep st c = { st with
      quote := some c,
      tokens := st.tokens ++ (if st.current = [] then [] else [st.current]),
      current := [] } := by
  have hcb : c ≠ backslashChar := by rcases hc with rfl | rfl <;> decide
  simp [tokenizerStep, h, hq, hcb, hc]

theorem tokenizerStep_whitespace (st : TokenizerState) (c : Char) (h : st.escaping = false)
    (hq : st.quote = none) (hcb : c ≠ backslashChar)
    (hc : ¬(c = doubleQuote ∨ c = singleQuote)) (hw : isJsWhitespace c = true) :
    tokenizerStep st c = { st with
      tokens := st.tokens ++ (if st.current = [] then [] else [st.current]),
      current := [] } := by
  simp [tokenizerStep, h, hq, hcb, hc, hw]

theorem tokenizerStep_plain (st : TokenizerState) (c : Char) (h : st.escaping = false)
    (hq : st.quote = none) (hcb : c ≠ backslashChar)
    (hc : ¬(c = doubleQuote ∨ c = singleQuote)) (hw : isJsWhitespace c = false) :
    tokenizerStep st c = { st with current := st.current ++ [c] } := by
  simp [tokenizerStep, h, hq, hcb, hc, hw]

/-! ### Claim theorems: tokenizer escape handling (C7) -/

/-- C7 counterexample: a backslash encountered while inside an (unclosed)
double quote sets the escaping flag instead of being appended literally, and
end-to-end the quote character following it is consumed verbatim into the
token — `tokenize("a\"b")` (quotes around `a\"b`) yields the single token
`a"b`, not the claim's literal-backslash reading. -/
theorem c7_counterexample :
    (tokenizerStep ⟨[], ['a'], some doubleQuote, false⟩ backslashChar).escaping = true ∧
    (tokenizerStep ⟨[], ['a'], some doubleQuote, false⟩ backslashChar).current = ['a'] ∧
    tokenizeShellCommand "\"a\\\"b\"" = ["a\"b"] := by decide

/-- C7 amended: the backslash escape takes effect at every scanner position,
inside or outside quotes — whenever the scanner is in escaping state the next
character is appended verbatim, and whenever it is not, a backslash (even
inside a quoted region) switches the scanner into escaping state. -/
theorem c7_escape_at_any_position :
    (∀ (st : TokenizerState) (c : Char), st.escaping = true →
      tokenizerStep st c = { st with current := st.current ++ [c], escaping := false }) ∧
    (∀ st : TokenizerState, st.escaping = false →
      tokenizerStep st backslashChar = { st with escaping := true }) :=
  ⟨fun st c h => tokenizerStep_escaping st c h, fun st h => tokenizerStep_backslash st h⟩

theorem c7_escape_at_any_position_witness :
    tokenizerStep ⟨[], [], some singleQuote, true⟩ 'x' = ⟨[], ['x'], some singleQuote, false⟩ ∧
    tokenizerStep ⟨[], [], none, false⟩ backslashChar = ⟨[], [], none, true⟩ :=
  ⟨c7_escape_at_any_position.1 ⟨[], [], some singleQuote, true⟩ 'x' rfl,
    c7_escape_at_any_position.2 ⟨[], [], none, false⟩ rfl⟩

/-! ### Quote-free token invariant (C10) -/

theorem not_mem_append_singleton {a c : Char} {l : List Char} (h1 : a ∉ l) (h2 : c ≠ a) :
    a ∉ l ++ [c] := by
  intro h
  rcases List.mem_append.mp h with h | h
  · exact h1 h
  · simp at h
    exact h2 h.symm

theorem tokenizerStep_quoteFree {tokq inpq : Char}
    (hpair : (tokq = doubleQuote ∧ inpq = singleQuote) ∨
      (tokq = singleQuote ∧ inpq = doubleQuote))
    {st : TokenizerState} {c : Char} (hc1 : c ≠ backslashChar) (hc2 : c ≠ inpq)
    (h1 : ∀ t ∈ st.tokens, tokq ∉ t) (h2 : tokq ∉ st.current) (h3 : st.escaping = false)
    (h4 : st.quote = none ∨ st.quote = some tokq) :
    (∀ t ∈ (tokenizerStep st c).tokens, tokq ∉ t) ∧ tokq ∉ (tokenizerStep st c).current ∧
      (tokenizerStep st c).escaping = false ∧
      ((tokenizerStep st c).quote = none ∨ (tokenizerStep st c).quote = some tokq) := by
  have hpush : ∀ t ∈ st.tokens ++ (if st.current = [] then [] else [st.current]), tokq ∉ t := by
    intro t ht
    rcases List.mem_append.mp ht with h | h
    · exact h1 t h
    · by_cases hcur : st.current = []
      · simp [hcur] at h
      · simp [hcur] at h
        exact h ▸ h2
  rcases h4 with hq | hq
  · by_cases hqc : c = doubleQuote ∨ c = singleQuote
    · have hct : c = tokq := by
        rcases hpair with ⟨rfl, rfl⟩ | ⟨rfl, rfl⟩ <;> rcases hqc with rfl | rfl <;>
          first
          | rfl
          | exact absurd rfl hc2
      rw [tokenizerStep_openQuote st c h3 hq hqc]
      exact ⟨hpush, by simp, h3, Or.inr (by rw [hct])⟩
    · by_cases hw : isJsWhitespace c
      · rw [tokenizerStep_whitespace st c h3 hq hc1 hqc hw]
        exact ⟨hpush, by simp, h3, Or.inl hq⟩
      · rw [tokenizerStep_plain st c h3 hq hc1 hqc (by simpa using hw)]
        refine ⟨h1, ?_, h3, Or.inl hq⟩
        have hctq : c ≠ tokq := by
          rcases hpair with ⟨rfl, _⟩ | ⟨rfl, _⟩ <;> intro hcc <;>
            exact hqc (by rw [hcc]; simp)
        exact not_mem_append_singleton h2 hctq
  · by_cases hcq : c = tokq
    · subst hcq
      rw [tokenizerStep_quote_close st c h3 hq hc1]
      exact ⟨h1, h2, h3, Or.inl rfl⟩
    · rw [tokenizerStep_inQuote st tokq c h3 hq hc1 hcq]
      exact ⟨h1, not_mem_append_singleton h2 hcq, h3, Or.inr hq⟩

theorem tokenizeFold_quoteFree {tokq inpq : Char}
    (hpair : (tokq = doubleQuote ∧ inpq = singleQuote) ∨
      (tokq = singleQuote ∧ inpq = doubleQuote)) :
    ∀ (cs : List Char) (st : TokenizerState),
      (∀ c ∈ cs, c ≠ backslashChar ∧ c ≠ inpq) →
      (∀ t ∈ st.tokens, tokq ∉ t) → tokq ∉ st.current → st.escaping = false →
      (st.quote = none ∨ st.quote = some tokq) →
      ((∀ t ∈ (cs.foldl tokenizerStep st).tokens, tokq ∉ t) ∧
        tokq ∉ (cs.foldl tokenizerStep st).current) := by
  intro cs
  induction cs with
  | nil => intro st _ h1 h2 _ _; exact ⟨h1, h2⟩
  | cons c rest ih =>
      intro st hcs h1 h2 h3 h4
      have hc := hcs c (by simp)
      obtain ⟨p1, p2, p3, p4⟩ := tokenizerStep_quoteFree hpair hc.1 hc.2 h1 h2 h3 h4
      exact ih (tokenizerStep st c) (fun x hx => hcs x (List.mem_cons_of_mem c hx)) p1 p2 p3 p4

theorem tokenize_quoteFree {tokq inpq : Char}
    (hpair : (tokq = doubleQuote ∧ inpq = singleQuote) ∨
      (tokq = singleQuote ∧ inpq = doubleQuote)) (command : String)
    (hcmd : ∀ c ∈ command.data, c ≠ backslashChar ∧ c ≠ inpq) :
    ∀ t ∈ tokenizeShellCommand command, tokq ∉ t.data := by
  intro t ht
  obtain ⟨l, hl, rfl⟩ := List.mem_map.mp ht
  show tokq ∉ l
  have hl2 : l ∈ ((command.data.foldl tokenizerStep tokenizerInit).tokens ++
      (if (command.data.foldl tokenizerStep tokenizerInit).current = [] then []
        else [(command.data.foldl tokenizerStep tokenizerInit).current])).map jsTrim :=
    (List.mem_filter.mp hl).1
  obtain ⟨r, hr, rfl⟩ := List.mem_map.mp hl2
  have hfold := tokenizeFold_quoteFree hpair command.data tokenizerInit hcmd
    (by simp [tokenizerInit]) (by simp [tokenizerInit]) rfl (Or.inl rfl)
  have hraw : tokq ∉ r := by
    rcases List.mem_append.mp hr with h | h
    · exact hfold.1 r h
    · by_cases hcur : (command.data.foldl tokenizerStep tokenizerInit).current = []
      · simp [hcur] at h
      · simp [hcur] at h
        exact h ▸ hfold.2
  exact fun hmem => hraw (mem_of_mem_jsTrim hmem)

/-! ### Claim theorems: tokenizer quote handling (C10) -/

/-- C10 counterexample: a double-quote character enclosed in single quotes is
taken literally into the token, so quote characters can appear inside returned
tokens — `tokenize('a"b')` (single quotes around `a"b`) yields the token `a"b`
containing a double quote. -/
theorem c10_counterexample :
    tokenizeShellCommand "'a\"b'" = ["a\"b"] ∧ doubleQuote ∈ (String.data "a\"b") := by
  decide

/-- C10 amended: when the scanner is not escaping and not inside a quote, an
opening quote character always terminates the token accumulated so far, and
quoted text adjacent to preceding unquoted text is split into two tokens
(`tokenize('foo"bar"')` is `["foo", "bar"]`).  Quote characters do reach
tokens via backslash escapes or enclosure in quotes of the other kind; for
inputs containing neither backslash nor single-quote characters no returned
token contains a double quote, and symmetrically with the two quote kinds
swapped. -/
theorem c10_open_quote_terminates_token :
    (∀ (st : TokenizerState) (c : Char), st.escaping = false → st.quote = none →
      (c = doubleQuote ∨ c = singleQuote) →
      tokenizerStep st c = { st with
        quote := some c,
        tokens := st.tokens ++ (if st.current = [] then [] else [st.current]),
        current := [] }) ∧
    tokenizeShellCommand "foo\"bar\"" = ["foo", "bar"] ∧
    (∀ command : String, (∀ c ∈ command.data, c ≠ backslashChar ∧ c ≠ singleQuote) →
      ∀ t ∈ tokenizeShellCommand command, doubleQuote ∉ t.data) ∧
    (∀ command : String, (∀ c ∈ command.data, c ≠ backslashChar ∧ c ≠ doubleQuote) →
      ∀ t ∈ tokenizeShellCommand command, singleQuote ∉ t.data) := by
  refine ⟨fun st c h3 hq hc => tokenizerStep_openQuote st c h3 hq hc, by decide, ?_, ?_⟩
  · exact fun command hcmd => tokenize_quoteFree (Or.inl ⟨rfl, rfl⟩) command hcmd
  · exact fun command hcmd => tokenize_quoteFree (Or.inr ⟨rfl, rfl⟩) command hcmd

theorem c10_open_quote_terminates_token_witness :
    tokenizerStep ⟨[], ['f'], none, false⟩ doubleQuote =
      ⟨[['f']], [], some doubleQuote, false⟩ ∧
    doubleQuote ∉ (String.data "ab") ∧ singleQuote ∉ (String.data "cd") := by
  refine ⟨?_, ?_, ?_⟩
  · exact c10_open_quote_terminates_token.1 ⟨[], ['f'], none, false⟩ doubleQuote rfl rfl
      (Or.inl rfl)
  · exact c10_open_quote_terminates_token.2.2.1 "ab" (by decide) "ab" (by decide)
  · exact c10_open_quote_terminates_token.2.2.2 "cd" (by decide) "cd" (by decide)

/-! ### Approval provider lemmas -/

theorem setAdd_contains_self (l : List String) (x : String) : (setAdd l x).contains x = true := by
  unfold setAdd
  by_cases h : l.contains x
  · rw [if_pos h]
    exact h
  · rw [if_neg h]
    simp

theorem cancelAll_loop (r : Option String) :
    ∀ (ids : List String) (st : ProviderState)
      (acc1 : List (String × ShellToolApprovalResult)) (acc2 : List ProviderEvent),
      st.pending.map Prod.fst = ids →
      ((ids.foldl (cancelAllStep r) ⟨st, acc1, acc2⟩).state.pending = [] ∧
        (ids.foldl (cancelAllStep r) ⟨st, acc1, acc2⟩).delivered =
          acc1 ++ ids.map (fun id => (id, ⟨.deny, none, some (r.getD "Cancelled")⟩))) := by
  intro ids
  induction ids with
  | nil =>
      intro st acc1 acc2 h
      have hp : st.pending = [] := List.map_eq_nil_iff.mp h
      simp [hp]
  | cons k rest ih =>
      intro st acc1 acc2 h
      cases hp : st.pending with
      | nil =>
          rw [hp] at h
          simp at h
      | cons kv ps =>
          rw [hp] at h
          simp only [List.map_cons] at h
          obtain ⟨k0, v⟩ := kv
          injection h with h1 h2
          subst h1
          have hcancel : cancel st k0 r =
              ⟨⟨ps, st.approvedCommands, st.approvalCounter⟩, true,
                [(k0, ⟨.deny, none, some (r.getD "Cancelled")⟩)],
                [.resolvedEvent k0 (.deny (some (r.getD "Cancelled")))
                  ⟨.deny, none, some (r.getD "Cancelled")⟩]⟩ := by
            unfold cancel respond
            rw [hp]
            simp [List.lookup, mapDecision]
          rw [List.foldl_cons]
          have hstep : cancelAllStep r ⟨st, acc1, acc2⟩ k0 =
              ⟨⟨ps, st.approvedCommands, st.approvalCounter⟩,
                acc1 ++ [(k0, ⟨.deny, none, some (r.getD "Cancelled")⟩)],
                acc2 ++ [.resolvedEvent k0 (.deny (some (r.getD "Cancelled")))
                  ⟨.deny, none, some (r.getD "Cancelled")⟩]⟩ := by
            unfold cancelAllStep
            rw [hcancel]
          rw [hstep]
          obtain ⟨ih1, ih2⟩ := ih ⟨ps, st.approvedCommands, st.approvalCounter⟩
            (acc1 ++ [(k0, ⟨.deny, none, some (r.getD "Cancelled")⟩)])
            (acc2 ++ [.resolvedEvent k0 (.deny (some (r.getD "Cancelled")))
              ⟨.deny, none, some (r.getD "Cancelled")⟩]) h2
          refine ⟨ih1, ?_⟩
          rw [ih2]
          simp

/-! ### Claim theorems: approval provider (C3, C4) -/

/-- C3: after `respond(id, allow, session)` resolves a pending approval whose
cache key is `C`, any `requestApproval` whose request sanitizes to the same
`C` resolves immediately with `allow`/`session`, leaving the provider state
untouched (no pending entry added, no id consumed) and emitting no
request-created event. -/
theorem c3_session_cache_short_circuit (st : ProviderState) (id : String)
    (entry : PendingApproval) (req : ShellToolApprovalRequest)
    (hlook : st.pending.lookup id = some entry)
    (hkey : buildCacheKey req = entry.cacheKey) :
    requestApproval (respond st id (.allow .session)).state req =
      ⟨(respond st id (.allow .session)).state,
        .resolvedNow ⟨.allow, some .session, none⟩, []⟩ := by
  have hstate : (respond st id (.allow .session)).state =
      ⟨st.pending.eraseP (fun p => p.1 == id), setAdd st.approvedCommands entry.cacheKey,
        st.approvalCounter⟩ := by
    unfold respond
    rw [hlook]
  rw [hstate]
  unfold requestApproval
  rw [hkey]
  rw [if_pos (setAdd_contains_self st.approvedCommands entry.cacheKey)]

theorem c3_session_cache_short_circuit_witness :
    requestApproval (respond sampleProviderState "approval-1" (.allow .session)).state
        sampleRequest =
      ⟨(respond sampleProviderState "approval-1" (.allow .session)).state,
        .resolvedNow ⟨.allow, some .session, none⟩, []⟩ :=
  c3_session_cache_short_circuit sampleProviderState "approval-1" sampleEntry sampleRequest
    (by decide) rfl

/-- C4: `cancelAll` on any provider state empties the pending map and delivers
exactly one denial per pending entry; on an empty pending map it is a no-op
returning the state unchanged with nothing delivered or emitted; and once an
id is absent from the pending map, `respond` and `cancel` on that id return
`false` without resolving anything or changing state. -/
theorem c4_cancelAll_resolves_all (st : ProviderState) (r : Option String) :
    ((cancelAll st r).state.pending = [] ∧
      (cancelAll st r).delivered.length = st.pending.length ∧
      (∀ x ∈ (cancelAll st r).delivered, x.2.decision = .deny)) ∧
    (st.pending = [] → cancelAll st r = ⟨st, [], []⟩) ∧
    (∀ id, st.pending.lookup id = none →
      (∀ d, respond st id d = ⟨st, false, [], []⟩) ∧
      (∀ s, cancel st id s = ⟨st, false, [], []⟩)) := by
  obtain ⟨h1, h2⟩ := cancelAll_loop r (st.pending.map Prod.fst) st [] [] rfl
  have h2' : (cancelAll st r).delivered =
      (st.pending.map Prod.fst).map
        (fun id => (id, ⟨.deny, none, some (r.getD "Cancelled")⟩)) := by
    rw [show (cancelAll st r).delivered =
      ((st.pending.map Prod.fst).foldl (cancelAllStep r) ⟨st, [], []⟩).delivered from rfl, h2]
    simp
  refine ⟨⟨h1, ?_, ?_⟩, ?_, ?_⟩
  · rw [h2']
    simp
  · intro x hx
    rw [h2'] at hx
    obtain ⟨id, _, rfl⟩ := List.mem_map.mp hx
    rfl
  · intro hp
    unfold cancelAll
    rw [hp]
    rfl
  · intro id hid
    constructor
    · intro d
      unfold respond
      rw [hid]
    · intro sreason
      unfold cancel respond
      rw [hid]

theorem c4_cancelAll_resolves_all_witness :
    cancelAll ⟨[], ["curl x"], 5⟩ none = ⟨⟨[], ["curl x"], 5⟩, [], []⟩ ∧
    respond sampleProviderState "missing" (.deny none) = ⟨sampleProviderState, false, [], []⟩ ∧
    cancel sampleProviderState "missing" none = ⟨sampleProviderState, false, [], []⟩ :=
  ⟨(c4_cancelAll_resolves_all ⟨[], ["curl x"], 5⟩ none).2.1 rfl,
    ((c4_cancelAll_resolves_all sampleProviderState none).2.2 "missing" (by decide)).1
      (.deny none),
    ((c4_cancelAll_resolves_all sampleProviderState none).2.2 "missing" (by decide)).2 none⟩

/-! ### Sandbox executor lemmas -/

theorem sandboxStep_outcome_frozen (cfg : SandboxConfig) {st : SandboxRun} {o : SandboxOutcome}
    (h : st.outcome = some o) (e : SandboxEvent) : (sandboxStep cfg st e).outcome = some o := by
  cases e with
  | dataEvent stream chunk =>
      unfold sandboxStep sandboxOnData
      by_cases hof : streamSize st stream + chunk.length > cfg.maxBuffer
      · simp [hof, abortRun, h]
      · simp only [hof, if_false]
        cases stream <;> simp [h]
  | timeoutEvent =>
      unfold sandboxStep
      by_cases ht : st.timerActive
      · simp [ht, abortRun, h]
      · simp [ht, h]
  | errorEvent msg =>
      unfold sandboxStep
      simp [abortRun, h]
  | closeEvent code signal =>
      unfold sandboxStep
      simp [finishRun, h]

theorem sandboxRunEvents_outcome_frozen (cfg : SandboxConfig) (o : SandboxOutcome) :
    ∀ (events : List SandboxEvent) (st : SandboxRun), st.outcome = some o →
      (sandboxRunEvents cfg st events).outcome = some o := by
  intro events
  induction events with
  | nil => intro st h; exact h
  | cons e rest ih =>
      intro st h
      exact ih (sandboxStep cfg st e) (sandboxStep_outcome_frozen cfg h e)

/-! ### Claim theorems: sandbox executor (C5) -/

/-- C5: if the wall-clock timer fires while the run is not yet completed, the
run rejects with a timeout `ShellSandboxError` carrying no partial result
(hence no exit code); if a stream's cumulative byte count would exceed the
per-stream cap while not yet completed, the run rejects with an overflow
`ShellSandboxError` whose partial result holds exactly the bytes captured so
far on both streams, with `exitCode` and `signal` both null; and once an
outcome has been reported, no later callback ever changes it (at most one
terminal outcome per invocation). -/
theorem c5_sandbox_single_terminal_outcome (cfg : SandboxConfig) (st : SandboxRun) :
    (st.outcome = none → st.timerActive = true →
      (sandboxStep cfg st .timeoutEvent).outcome =
        some (.rejectedOutcome (timeoutMessage cfg.timeoutMs) none)) ∧
    (∀ stream chunk, st.outcome = none →
      streamSize st stream + List.length chunk > cfg.maxBuffer →
      (sandboxStep cfg st (.dataEvent stream chunk)).outcome =
        some (.rejectedOutcome (overflowMessage stream cfg.maxBuffer)
          (some ⟨st.stdoutChunks.flatten, st.stderrChunks.flatten, none, none⟩))) ∧
    (∀ events o, st.outcome = some o →
      (sandboxRunEvents cfg st events).outcome = some o) := by
  refine ⟨?_, ?_, ?_⟩
  · intro h1 h2
    simp [sandboxStep, h2, abortRun, h1]
  · intro stream chunk h1 h2
    simp [sandboxStep, sandboxOnData, h2, abortRun, h1, capturedSoFar]
  · intro events o h
    exact sandboxRunEvents_outcome_frozen cfg o events st h

theorem c5_sandbox_single_terminal_outcome_witness :
    (sandboxStep ⟨5000, 4⟩ ⟨[], [], 0, 0, true, none⟩ .timeoutEvent).outcome =
      some (.rejectedOutcome (timeoutMessage 5000) none) ∧
    (sandboxStep ⟨5000, 4⟩ ⟨[[1, 2]], [], 2, 0, true, none⟩
        (.dataEvent .stdoutStream [3, 4, 5])).outcome =
      some (.rejectedOutcome (overflowMessage .stdoutStream 4)
        (some ⟨[1, 2], [], none, none⟩)) ∧
    (sandboxRunEvents ⟨5000, 4⟩
        ⟨[], [], 0, 0, false, some (.rejectedOutcome (timeoutMessage 5000) none)⟩
        [.closeEvent (some 0) none]).outcome =
      some (.rejectedOutcome (timeoutMessage 5000) none) :=
  ⟨(c5_sandbox_single_terminal_outcome ⟨5000, 4⟩ ⟨[], [], 0, 0, true, none⟩).1 rfl rfl,
    (c5_sandbox_single_terminal_outcome ⟨5000, 4⟩ ⟨[[1, 2]], [], 2, 0, true, none⟩).2.1
      .stdoutStream [3, 4, 5] rfl (by decide),
    (c5_sandbox_single_terminal_outcome ⟨5000, 4⟩
        ⟨[], [], 0, 0, false, some (.rejectedOutcome (timeoutMessage 5000) none)⟩).2.2
      [.closeEvent (some 0) none] (.rejectedOutcome (timeoutMessage 5000) none) rfl⟩

/-! ### Claim theorems: orchestrator approval gating (C2) -/

/-- C2: when the analysis of a command is `external` risk and no approval
provider is configured, `ShellTool.run` returns the
requires-approval-but-no-provider error — a non-empty message mentioning
"approval" — and the sandboxed executor is never invoked. -/
theorem c2_external_requires_provider (opts : ShellToolOptions)
    (exec : String → ShellSandboxOptions → Except ShellExecFailure ShellSandboxResult)
    (command : String) (hprov : opts.approvalProvider = none)
    (hext : (analyzeShellCommand command).risk.level = .external) :
    (shellToolRun opts exec command).1.error = some (noApprovalProviderMessage command) ∧
    noApprovalProviderMessage command ≠ "" ∧
    containsSub "approval".data (noApprovalProviderMessage command).data = true ∧
    (shellToolRun opts exec command).2 = false := by
  have hne : ¬((jsTrim command.data).length = 0) := by
    intro h0
    have hnil : jsTrim command.data = [] := List.length_eq_zero.mp h0
    have hlow : (analyzeShellCommand command).risk.level = .low := by
      show (determineRisk (tokenizeShellCommand (String.mk (jsTrim command.data)))
        (String.mk (jsTrim command.data))).level = .low
      rw [hnil]
      decide
    rw [hlow] at hext
    exact ShellCommandRiskLevel.noConfusion hext
  have hens : ensureApproval opts (analyzeShellCommand command) command =
      .error (noApprovalProviderMessage command) := by
    unfold ensureApproval
    rw [if_neg (fun hc => hc hext), hprov]
  have hdata : (noApprovalProviderMessage command).data =
      ("Command \"" : String).data ++ (command.data ++
        ("\" requires approval but no approval provider is configured." : String).data) := by
    simp [noApprovalProviderMessage]
  refine ⟨?_, ?_, ?_, ?_⟩
  · unfold shellToolRun
    rw [if_neg hne, hens]
  · intro h0
    have h1 := congrArg String.data h0
    rw [hdata] at h1
    have h2 : ("Command \"" : String).data = [] := (List.append_eq_nil.mp h1).1
    exact absurd h2 (by decide)
  · rw [hdata]
    apply containsSub_append_right
    apply containsSub_append_right
    decide
  · unfold shellToolRun
    rw [if_neg hne, hens]

theorem c2_external_requires_provider_witness :
    (shellToolRun ⟨none, none, none, none⟩
        (fun _ _ => .ok ⟨"", "", some 0, none⟩) "curl https://x").1.error =
      some (noApprovalProviderMessage "curl https://x") ∧
    noApprovalProviderMessage "curl https://x" ≠ "" ∧
    containsSub "approval".data (noApprovalProviderMessage "curl https://x").data = true ∧
    (shellToolRun ⟨none, none, none, none⟩
        (fun _ _ => .ok ⟨"", "", some 0, none⟩) "curl https://x").2 = false :=
  c2_external_requires_provider ⟨none, none, none, none⟩
    (fun _ _ => .ok ⟨"", "", some 0, none⟩) "curl https://x" rfl (by decide)

/-! ### Preview lemmas -/

theorem trimLine_length_le (l : List Char) : (trimLine l).length ≤ PREVIEW_MAX_LINE_LENGTH := by
  unfold trimLine
  by_cases h : (jsTrimEnd l).length ≤ PREVIEW_MAX_LINE_LENGTH
  · rw [if_pos h]
    exact h
  · rw [if_neg h]
    simp only [List.length_append, List.length_take, List.length_singleton,
      PREVIEW_MAX_LINE_LENGTH] at h ⊢
    omega

/-! ### Claim theorems: output preview (C8) -/

/-- C8: every preview built by the orchestrator has at most
`PREVIEW_HEAD_LINES + PREVIEW_TAIL_LINES + 1` entries (the extra entry being
the ellipsis marker, with head 2 and tail 1 here), every entry is capped at
`PREVIEW_MAX_LINE_LENGTH` characters, and the `truncated` flag is true exactly
when the output had more meaningful lines than the preview shows. -/
theorem c8_preview_bounds (output : String) (p : ToolDisplayPreview)
    (h : createOutputPreview output = some p) :
    p.lines.length ≤ PREVIEW_HEAD_LINES + PREVIEW_TAIL_LINES + 1 ∧
    (∀ l ∈ p.lines, l.length ≤ PREVIEW_MAX_LINE_LENGTH) ∧
    (p.truncated = true ↔ (meaningfulLines output).length > shownLineCount p) := by
  unfold createOutputPreview at h
  by_cases h0 : (meaningfulLines output).length = 0
  · rw [if_pos h0] at h
    exact absurd h (by simp)
  · rw [if_neg h0] at h
    by_cases h1 : (meaningfulLines output).length ≤ PREVIEW_HEAD_LINES + PREVIEW_TAIL_LINES
    · rw [if_pos h1] at h
      have hp := Option.some.inj h
      subst hp
      refine ⟨?_, ?_, ?_⟩
      · simp only [List.length_map]
        exact le_trans h1 (Nat.le_succ _)
      · intro l hl
        obtain ⟨l', _, rfl⟩ := List.mem_map.mp hl
        exact trimLine_length_le l'
      · simp [shownLineCount]
    · rw [if_neg h1] at h
      have hp := Option.some.inj h
      subst hp
      have h4 : PREVIEW_HEAD_LINES + PREVIEW_TAIL_LINES < (meaningfulLines output).length :=
        not_le.mp h1
      have hlen : (((meaningfulLines output).take PREVIEW_HEAD_LINES).map
          (fun l => String.mk (trimLine l)) ++ ["…"] ++
          ((meaningfulLines output).drop ((meaningfulLines output).length -
            PREVIEW_TAIL_LINES)).map (fun l => String.mk (trimLine l))).length =
          PREVIEW_HEAD_LINES + 1 + PREVIEW_TAIL_LINES := by
        simp only [List.length_append, List.length_map, List.length_take, List.length_drop,
          List.length_singleton]
        simp only [PREVIEW_HEAD_LINES, PREVIEW_TAIL_LINES] at h4 ⊢
        omega
      refine ⟨?_, ?_, ?_⟩
      · rw [show (⟨_, true⟩ : ToolDisplayPreview).lines.length = _ from hlen]
        omega
      · intro l hl
        rcases List.mem_append.mp hl with hl2 | hl2
        · rcases List.mem_append.mp hl2 with hl3 | hl3
          · obtain ⟨l', _, rfl⟩ := List.mem_map.mp hl3
            exact trimLine_length_le l'
          · simp only [List.mem_singleton] at hl3
            subst hl3
            decide
        · obtain ⟨l', _, rfl⟩ := List.mem_map.mp hl2
          exact trimLine_length_le l'
      · simp only [shownLineCount, if_pos]
        constructor
        · intro _
          rw [show (⟨_, true⟩ : ToolDisplayPreview).lines.length = _ from hlen]
          omega
        · intro _
          trivial

theorem c8_preview_bounds_witness :
    ((⟨["a", "b", "…", "e"], true⟩ : ToolDisplayPreview).lines.length ≤
      PREVIEW_HEAD_LINES + PREVIEW_TAIL_LINES + 1) ∧
    ("a" : String).length ≤ PREVIEW_MAX_LINE_LENGTH ∧
    ((⟨["a", "b", "…", "e"], true⟩ : ToolDisplayPreview).truncated = true ↔
      (meaningfulLines "a\nb\nc\nd\ne").length >
        shownLineCount ⟨["a", "b", "…", "e"], true⟩) :=
  have h := c8_preview_bounds "a\nb\nc\nd\ne" ⟨["a", "b", "…", "e"], true⟩ (by decide)
  ⟨h.1, h.2.1 "a" (by decide), h.2.2⟩

end Ghu
